import Mathlib

/-!
Formal model of the kanshi indexer (RougeDevs/kanshi), a shallow embedding of
the Rust sources in Lean 4, together with proofs settling the specification
claims about the checkpointed stream-consumption loop, the checkpoint file
model, and the typed object store.

The JSON values below model serde_json values as produced and consumed by the
repository (unsigned integers, strings, arrays, objects); `encJson` models
serde_json to_string on such values and `parseVal` models serde_json from_str
restricted to the canonical output format.
-/

set_option maxHeartbeats 1000000

namespace Kanshi

-- JSON values, modelling serde_json Value as used by the repository.
mutual

inductive Json where
  | null : Json
  | bool (b : Bool) : Json
  | num (n : Nat) : Json
  | str (s : String) : Json
  | arr (xs : JsonList) : Json
  | obj (fs : JsonFields) : Json

inductive JsonList where
  | nil : JsonList
  | cons (hd : Json) (tl : JsonList) : JsonList

inductive JsonFields where
  | nil : JsonFields
  | cons (k : String) (v : Json) (tl : JsonFields) : JsonFields

end

-- Structural size of a JSON value, used as parser fuel bound.
mutual

def sizeJ : Json → Nat
  | .null => 1
  | .bool _ => 1
  | .num _ => 1
  | .str s => 1 + s.data.length
  | .arr xs => 1 + sizeL xs
  | .obj fs => 1 + sizeF fs

def sizeL : JsonList → Nat
  | .nil => 1
  | .cons h t => 1 + sizeJ h + sizeL t

def sizeF : JsonFields → Nat
  | .nil => 1
  | .cons k v t => 1 + k.data.length + sizeJ v + sizeF t

end

/-- Lower-case hex digit character for a value below 16. -/
def hexDigitChar (n : Nat) : Char :=
  if n < 10 then Char.ofNat (48 + n) else Char.ofNat (87 + n)

/-- Decimal digit character. -/
def digitChar (d : Nat) : Char := Char.ofNat (48 + d)

/-- Escape one character of a JSON string, following the serde_json table. -/
def escChar (c : Char) : List Char :=
  if c = '"' then ['\\', '"']
  else if c = '\\' then ['\\', '\\']
  else if c = '\x08' then ['\\', 'b']
  else if c = '\x09' then ['\\', 't']
  else if c = '\x0a' then ['\\', 'n']
  else if c = '\x0c' then ['\\', 'f']
  else if c = '\x0d' then ['\\', 'r']
  else if c.toNat < 32 then
    '\\' :: 'u' :: '0' :: '0' :: [hexDigitChar (c.toNat / 16), hexDigitChar (c.toNat % 16)]
  else [c]

/-- Escape a whole string body. -/
def escString : List Char → List Char
  | [] => []
  | c :: cs => escChar c ++ escString cs

/-- Little-endian decimal digits, by fuel-bounded structural recursion so that
the kernel can evaluate it. -/
def natDigitsAux : Nat → Nat → List Nat
  | 0, _ => []
  | _ + 1, 0 => []
  | fuel + 1, n + 1 => ((n + 1) % 10) :: natDigitsAux fuel ((n + 1) / 10)

/-- Little-endian decimal digits of a natural number. -/
def natDigits (n : Nat) : List Nat := natDigitsAux n n

/-- Big-endian decimal digit characters of a natural number. -/
def natChars (n : Nat) : List Char :=
  if n = 0 then ['0'] else (natDigits n).reverse.map digitChar

-- Serializer for JSON values, modelling serde_json to_string (compact form).
mutual

def encJson : Json → List Char
  | .null => "null".data
  | .bool true => "true".data
  | .bool false => "false".data
  | .num n => natChars n
  | .str s => '"' :: (escString s.data ++ ['"'])
  | .arr xs => '[' :: encArr xs
  | .obj fs => '{' :: encObj fs

def encArr : JsonList → List Char
  | .nil => [']']
  | .cons h t => encJson h ++ encArrRest t

def encArrRest : JsonList → List Char
  | .nil => [']']
  | .cons h t => ',' :: (encJson h ++ encArrRest t)

def encObj : JsonFields → List Char
  | .nil => ['}']
  | .cons k v t => '"' :: (escString k.data ++ ('"' :: ':' :: (encJson v ++ encObjRest t)))

def encObjRest : JsonFields → List Char
  | .nil => ['}']
  | .cons k v t =>
      ',' :: '"' :: (escString k.data ++ ('"' :: ':' :: (encJson v ++ encObjRest t)))

end

/-- Serialized form of a JSON value as a string. -/
def encodeJsonString (v : Json) : String := ⟨encJson v⟩

/-- Numeric value of a hex digit character, if any. -/
def hexVal (c : Char) : Option Nat :=
  if 48 ≤ c.toNat ∧ c.toNat ≤ 57 then some (c.toNat - 48)
  else if 97 ≤ c.toNat ∧ c.toNat ≤ 102 then some (c.toNat - 87)
  else if 65 ≤ c.toNat ∧ c.toNat ≤ 70 then some (c.toNat - 55)
  else none

/-- Decode a single-character escape. -/
def unescChar (e : Char) : Option Char :=
  if e = '"' then some '"'
  else if e = '\\' then some '\\'
  else if e = '/' then some '/'
  else if e = 'b' then some '\x08'
  else if e = 't' then some '\x09'
  else if e = 'n' then some '\x0a'
  else if e = 'f' then some '\x0c'
  else if e = 'r' then some '\x0d'
  else none

/-- Prepend a decoded character to the result of parsing the remaining string
body. -/
def parseStrCont (c : Char) : Option (List Char × List Char) → Option (List Char × List Char)
  | some (cs, r) => some (c :: cs, r)
  | none => none

/-- Decode a four-hex-digit escape and continue. -/
def parseHexCont (a b c₃ d : Char) (k : Option (List Char × List Char)) :
    Option (List Char × List Char) :=
  match hexVal a, hexVal b, hexVal c₃, hexVal d with
  | some ha, some hb, some hc, some hd =>
      parseStrCont (Char.ofNat (ha * 4096 + hb * 256 + hc * 16 + hd)) k
  | _, _, _, _ => none

/-- One step of string-body parsing, with the recursive parser passed in. -/
def parseStrCharsBody (k : List Char → Option (List Char × List Char)) (c : Char)
    (rest : List Char) : Option (List Char × List Char) :=
  if c = '"' then some ([], rest)
  else if c = '\\' then
    match rest with
    | [] => none
    | e :: rest₂ =>
      if e = 'u' then
        match rest₂ with
        | a :: b :: c₃ :: d :: rest₃ => parseHexCont a b c₃ d (k rest₃)
        | _ => none
      else
        match unescChar e with
        | some ch => parseStrCont ch (k rest₂)
        | none => none
  else parseStrCont c (k rest)

/-- Parse the body of a JSON string literal up to and including the closing
quote, returning the decoded characters and the remaining input. -/
def parseStrChars : Nat → List Char → Option (List Char × List Char)
  | 0, _ => none
  | _ + 1, [] => none
  | fuel + 1, c :: rest => parseStrCharsBody (fun l => parseStrChars fuel l) c rest

/-- Greedily parse a run of decimal digits, accumulating the value. -/
def parseNatAux : List Char → Nat → Nat × List Char
  | [], acc => (acc, [])
  | c :: rest, acc =>
    if c.isDigit then parseNatAux rest (acc * 10 + (c.toNat - 48)) else (acc, c :: rest)

/-- Turn a parsed string body into a JSON string value. -/
def strResCont : Option (List Char × List Char) → Option (Json × List Char)
  | some (cs, r) => some (.str ⟨cs⟩, r)
  | none => none

/-- Continue an array parse after one element, with the recursive parser
passed in. -/
def itemsStep (pi : List Char → Option (Json × List Char)) :
    Option (Json × List Char) → Option (Json × List Char)
  | some (v, s :: r) =>
    if s = ',' then
      match pi r with
      | some (.arr vs, r₂) => some (.arr (.cons v vs), r₂)
      | _ => none
    else if s = ']' then some (.arr (.cons v .nil), r)
    else none
  | _ => none

/-- Continue an object parse after one member value, with the recursive parser
passed in. -/
def fieldsStep (pf : List Char → Option (Json × List Char)) (k : List Char) :
    Option (Json × List Char) → Option (Json × List Char)
  | some (v, s :: r) =>
    if s = ',' then
      match pf r with
      | some (.obj fs, r₂) => some (.obj (.cons ⟨k⟩ v fs), r₂)
      | _ => none
    else if s = '}' then some (.obj (.cons ⟨k⟩ v .nil), r)
    else none
  | _ => none

/-- One step of value parsing, with the string, array and object parsers
passed in. -/
def parseValBody (ps : List Char → Option (List Char × List Char))
    (pi pf : List Char → Option (Json × List Char)) (c : Char) (rest : List Char) :
    Option (Json × List Char) :=
  if c = 'n' then
    match rest with
    | u :: l₁ :: l₂ :: r => if u = 'u' ∧ l₁ = 'l' ∧ l₂ = 'l' then some (.null, r) else none
    | _ => none
  else if c = 't' then
    match rest with
    | r₁ :: u :: e :: r => if r₁ = 'r' ∧ u = 'u' ∧ e = 'e' then some (.bool true, r) else none
    | _ => none
  else if c = 'f' then
    match rest with
    | a :: l :: s :: e :: r =>
      if a = 'a' ∧ l = 'l' ∧ s = 's' ∧ e = 'e' then some (.bool false, r) else none
    | _ => none
  else if c = '"' then strResCont (ps rest)
  else if c = '[' then
    match rest with
    | [] => none
    | d :: rest₂ => if d = ']' then some (.arr .nil, rest₂) else pi (d :: rest₂)
  else if c = '{' then
    match rest with
    | [] => none
    | d :: rest₂ => if d = '}' then some (.obj .nil, rest₂) else pf (d :: rest₂)
  else if c.isDigit then
    (fun p => some (.num p.1, p.2)) (parseNatAux (c :: rest) 0)
  else none

-- Fuel-indexed parser for JSON values, modelling serde_json from_str on
-- the canonical serializer output.
mutual

def parseVal : Nat → List Char → Option (Json × List Char)
  | 0, _ => none
  | _ + 1, [] => none
  | fuel + 1, c :: rest =>
    parseValBody (fun l => parseStrChars (fuel + 1) l) (fun l => parseItems fuel l)
      (fun l => parseFields fuel l) c rest

def parseItems : Nat → List Char → Option (Json × List Char)
  | 0, _ => none
  | fuel + 1, l => itemsStep (fun r => parseItems fuel r) (parseVal fuel l)

def parseFields : Nat → List Char → Option (Json × List Char)
  | 0, _ => none
  | fuel + 1, l =>
    match l with
    | [] => none
    | q :: rest =>
      if q = '"' then
        match parseStrChars (fuel + 1) rest with
        | some (ks, r₁) =>
          match r₁ with
          | [] => none
          | colon :: r₂ =>
            if colon = ':' then fieldsStep (fun r => parseFields fuel r) ks (parseVal fuel r₂)
            else none
        | none => none
      else none

end

/-- Parse a complete JSON document, requiring the input to be consumed. -/
def parseJsonString (s : String) : Option Json :=
  match parseVal (2 * s.data.length + 1) s.data with
  | some (v, []) => some v
  | _ => none

/-- Whether the input starts with a decimal digit. -/
def isDigitHead : List Char → Bool
  | [] => false
  | c :: _ => c.isDigit

theorem natDigitsAux_eq (fuel n : Nat) (h : n ≤ fuel) :
    natDigitsAux fuel n = Nat.digits 10 n := by
  induction fuel generalizing n with
  | zero =>
    interval_cases n
    simp [natDigitsAux]
  | succ fuel ih =>
    cases n with
    | zero => simp [natDigitsAux]
    | succ m =>
      rw [natDigitsAux, ih ((m + 1) / 10) (by omega),
        Nat.digits_def' (by norm_num : (1:Nat) < 10) (Nat.succ_pos m)]

theorem natDigits_eq (n : Nat) : natDigits n = Nat.digits 10 n :=
  natDigitsAux_eq n n le_rfl

theorem digitChar_toNat {d : Nat} (h : d < 10) : (digitChar d).toNat = 48 + d := by
  interval_cases d <;> rfl

theorem digitChar_isDigit {d : Nat} (h : d < 10) : (digitChar d).isDigit = true := by
  interval_cases d <;> rfl

theorem parseNatAux_digits (L : List Nat) (hL : ∀ d ∈ L, d < 10) (acc : Nat)
    (rest : List Char) (hrest : isDigitHead rest = false) :
    parseNatAux (L.map digitChar ++ rest) acc =
      (L.foldl (fun a d => a * 10 + d) acc, rest) := by
  induction L generalizing acc with
  | nil =>
    cases rest with
    | nil => rfl
    | cons c r =>
      simp only [isDigitHead] at hrest
      simp [parseNatAux, hrest]
  | cons d T ih =>
    have hd : d < 10 := hL d (by simp)
    simp only [List.map_cons, List.cons_append, parseNatAux, digitChar_isDigit hd,
      if_pos, digitChar_toNat hd, List.foldl_cons]
    have h48 : 48 + d - 48 = d := by omega
    rw [h48]
    exact ih (fun x hx => hL x (by simp [hx])) (acc * 10 + d)

theorem foldl_reverse_ofDigits (L : List Nat) (acc : Nat) :
    L.reverse.foldl (fun a d => a * 10 + d) acc =
      acc * 10 ^ L.length + Nat.ofDigits 10 L := by
  induction L generalizing acc with
  | nil => simp [Nat.ofDigits]
  | cons d T ih =>
    simp only [List.reverse_cons, List.foldl_append, List.foldl_cons, List.foldl_nil, ih,
      Nat.ofDigits_cons, List.length_cons]
    ring

theorem parseNatAux_natChars (n : Nat) (rest : List Char)
    (hrest : isDigitHead rest = false) :
    parseNatAux (natChars n ++ rest) 0 = (n, rest) := by
  by_cases hn : n = 0
  · subst hn
    have h0 : natChars 0 = List.map digitChar [0] := rfl
    rw [natChars, if_pos rfl,
      show (['0'] : List Char) = List.map digitChar [0] from rfl,
      parseNatAux_digits [0] (by simp) 0 rest hrest]
    rfl
  · rw [natChars, if_neg hn, natDigits_eq,
      parseNatAux_digits ((Nat.digits 10 n).reverse) (fun d hd =>
        Nat.digits_lt_base (by norm_num) (List.mem_reverse.mp hd)) 0 rest hrest,
      foldl_reverse_ofDigits, Nat.ofDigits_digits]
    simp

theorem natChars_shape (n : Nat) : ∃ d cs, natChars n = digitChar d :: cs ∧ d < 10 := by
  by_cases hn : n = 0
  · exact ⟨0, [], by subst hn; rfl, by omega⟩
  · rw [natChars, if_neg hn, natDigits_eq]
    have hne : (Nat.digits 10 n).reverse ≠ [] := by
      simp [Nat.digits_ne_nil_iff_ne_zero, hn]
    cases hrev : (Nat.digits 10 n).reverse with
    | nil => exact absurd hrev hne
    | cons d T =>
      refine ⟨d, T.map digitChar, by simp [hrev], ?_⟩
      have : d ∈ (Nat.digits 10 n).reverse := by rw [hrev]; simp
      exact Nat.digits_lt_base (by norm_num) (List.mem_reverse.mp this)

theorem digitChar_not_special {d : Nat} (h : d < 10) :
    digitChar d ≠ 'n' ∧ digitChar d ≠ 't' ∧ digitChar d ≠ 'f' ∧ digitChar d ≠ '"' ∧
      digitChar d ≠ '[' ∧ digitChar d ≠ '{' ∧ digitChar d ≠ ']' ∧ digitChar d ≠ '}' := by
  interval_cases d <;> refine ⟨?_, ?_, ?_, ?_, ?_, ?_, ?_, ?_⟩ <;> decide

theorem hexVal_hexDigitChar {k : Nat} (h : k < 16) : hexVal (hexDigitChar k) = some k := by
  interval_cases k <;> decide

theorem parseHexCont_eq {a b c₃ d : Char} {x y z w : Nat} (k : Option (List Char × List Char))
    (ha : hexVal a = some x) (hb : hexVal b = some y) (hc : hexVal c₃ = some z)
    (hd : hexVal d = some w) :
    parseHexCont a b c₃ d k =
      parseStrCont (Char.ofNat (x * 4096 + y * 256 + z * 16 + w)) k := by
  unfold parseHexCont
  rw [ha, hb, hc, hd]

theorem parseStrCharsBody_lit (k : List Char → Option (List Char × List Char)) (c : Char)
    (rest : List Char) (h₁ : c ≠ '"') (h₂ : c ≠ '\\') :
    parseStrCharsBody k c rest = parseStrCont c (k rest) := by
  unfold parseStrCharsBody
  rw [if_neg h₁, if_neg h₂]

theorem parseStrChars_escChar (fuel : Nat) (c : Char) (l : List Char) :
    parseStrChars (fuel + 1) (escChar c ++ l) = parseStrCont c (parseStrChars fuel l) := by
  rw [escChar]
  split_ifs with h₁ h₂ h₃ h₄ h₅ h₆ h₇ h₈
  · subst h₁
    rfl
  · subst h₂
    rfl
  · subst h₃
    rfl
  · subst h₄
    rfl
  · subst h₅
    rfl
  · subst h₆
    rfl
  · subst h₇
    rfl
  · have hdiv : c.toNat / 16 < 16 := by omega
    have hmod : c.toNat % 16 < 16 := by omega
    show parseHexCont '0' '0' (hexDigitChar (c.toNat / 16)) (hexDigitChar (c.toNat % 16))
        (parseStrChars fuel l) = parseStrCont c (parseStrChars fuel l)
    rw [parseHexCont_eq (parseStrChars fuel l) (rfl : hexVal '0' = some 0)
      (rfl : hexVal '0' = some 0) (hexVal_hexDigitChar hdiv) (hexVal_hexDigitChar hmod)]
    simp only [show ('0'.toNat - 48) = 0 from rfl]
    have hval : 0 * 4096 + 0 * 256 + c.toNat / 16 * 16 + c.toNat % 16 = c.toNat := by omega
    rw [hval, Char.ofNat_toNat]
  · show parseStrCharsBody (fun r => parseStrChars fuel r) c l =
      parseStrCont c (parseStrChars fuel l)
    rw [parseStrCharsBody_lit _ _ _ h₁ h₂]

theorem parseStrChars_escString (cs : List Char) (fuel : Nat) (rest : List Char)
    (h : cs.length < fuel) :
    parseStrChars fuel (escString cs ++ ('"' :: rest)) = some (cs, rest) := by
  induction cs generalizing fuel with
  | nil =>
    cases fuel with
    | zero => omega
    | succ f =>
      rw [escString, List.nil_append]
      rfl
  | cons c tl ih =>
    cases fuel with
    | zero => omega
    | succ f =>
      rw [escString, List.append_assoc, parseStrChars_escChar,
        ih f (by simpa using Nat.lt_of_succ_lt_succ h)]
      rfl

theorem sizeJ_pos (v : Json) : 1 ≤ sizeJ v := by
  cases v <;> simp [sizeJ]

theorem sizeL_pos (xs : JsonList) : 1 ≤ sizeL xs := by
  cases xs
  · simp [sizeL]
  · simp [sizeL]
    omega

theorem sizeF_pos (fs : JsonFields) : 1 ≤ sizeF fs := by
  cases fs
  · simp [sizeF]
  · simp [sizeF]
    omega

theorem encJson_head (v : Json) : ∃ c l, encJson v = c :: l ∧ c ≠ ']' := by
  cases v with
  | null => exact ⟨'n', _, rfl, by decide⟩
  | bool b =>
    cases b with
    | true => exact ⟨'t', _, rfl, by decide⟩
    | false => exact ⟨'f', _, rfl, by decide⟩
  | num n =>
    obtain ⟨d, cs, hsh, hd10⟩ := natChars_shape n
    exact ⟨digitChar d, cs, hsh, (digitChar_not_special hd10).2.2.2.2.2.2.1⟩
  | str s => exact ⟨'"', _, rfl, by decide⟩
  | arr xs => exact ⟨'[', _, rfl, by decide⟩
  | obj fs => exact ⟨'{', _, rfl, by decide⟩

theorem isDigitHead_encArrRest (t : JsonList) (rest : List Char) :
    isDigitHead (encArrRest t ++ rest) = false := by
  cases t <;> rfl

theorem isDigitHead_encObjRest (t : JsonFields) (rest : List Char) :
    isDigitHead (encObjRest t ++ rest) = false := by
  cases t <;> rfl

theorem parse_enc (fuel : Nat) :
    (∀ v rest, sizeJ v ≤ fuel → isDigitHead rest = false →
      parseVal fuel (encJson v ++ rest) = some (v, rest)) ∧
    (∀ h t rest, sizeJ h + sizeL t ≤ fuel → isDigitHead rest = false →
      parseItems fuel (encJson h ++ (encArrRest t ++ rest)) =
        some (.arr (.cons h t), rest)) ∧
    (∀ k v t rest, k.data.length + sizeJ v + sizeF t ≤ fuel → isDigitHead rest = false →
      parseFields fuel
          ('"' :: (escString k.data ++ ('"' :: ':' :: (encJson v ++ (encObjRest t ++ rest))))) =
        some (.obj (.cons k v t), rest)) := by
  induction fuel with
  | zero =>
    refine ⟨?_, ?_, ?_⟩
    · intro v rest hs _
      have := sizeJ_pos v
      omega
    · intro h t rest hs _
      have := sizeJ_pos h
      have := sizeL_pos t
      omega
    · intro k v t rest hs _
      have := sizeJ_pos v
      have := sizeF_pos t
      omega
  | succ fuel ih =>
    obtain ⟨ih1, ih2, ih3⟩ := ih
    refine ⟨?_, ?_, ?_⟩
    · intro v rest hs hd
      cases v with
      | null => rfl
      | bool b => cases b <;> rfl
      | num n =>
        obtain ⟨d, cs, hsh, hd10⟩ := natChars_shape n
        obtain ⟨hn', ht', hf', hq', hlb', hob', _, _⟩ := digitChar_not_special hd10
        simp only [encJson]
        rw [hsh, List.cons_append]
        show parseValBody (fun l => parseStrChars (fuel + 1) l) (fun l => parseItems fuel l)
          (fun l => parseFields fuel l) (digitChar d) (cs ++ rest) = some (.num n, rest)
        rw [parseValBody.eq_def, if_neg hn', if_neg ht', if_neg hf', if_neg hq', if_neg hlb',
          if_neg hob', if_pos (digitChar_isDigit hd10)]
        have hre : digitChar d :: (cs ++ rest) = natChars n ++ rest := by
          rw [hsh, List.cons_append]
        rw [hre, parseNatAux_natChars n rest hd]
      | str s =>
        have hsz : s.data.length < fuel + 1 := by
          have hlen : s.data.length = s.length := rfl
          simp [sizeJ] at hs
          omega
        simp only [encJson, List.cons_append, List.append_assoc, List.nil_append]
        show strResCont (parseStrChars (fuel + 1) (escString s.data ++ ('"' :: rest))) =
          some (.str s, rest)
        rw [parseStrChars_escString s.data (fuel + 1) rest hsz]
        rfl
      | arr xs =>
        cases xs with
        | nil => rfl
        | cons h t =>
          obtain ⟨hc, hl, hcl, hne⟩ := encJson_head h
          have hsz : sizeJ h + sizeL t ≤ fuel := by
            simp [sizeJ, sizeL] at hs
            omega
          simp only [encJson, encArr, List.cons_append, List.append_assoc]
          rw [hcl, List.cons_append]
          show (if hc = ']' then some (Json.arr JsonList.nil, hl ++ (encArrRest t ++ rest))
            else parseItems fuel (hc :: (hl ++ (encArrRest t ++ rest)))) =
            some (.arr (.cons h t), rest)
          rw [if_neg hne, ← List.cons_append, ← hcl]
          exact ih2 h t rest hsz hd
      | obj fs =>
        cases fs with
        | nil => rfl
        | cons k v t =>
          have hsz : k.data.length + sizeJ v + sizeF t ≤ fuel := by
            have hlen : k.data.length = k.length := rfl
            simp [sizeJ, sizeF] at hs
            omega
          simp only [encJson, encObj, List.cons_append, List.append_assoc]
          show parseFields fuel
              ('"' :: (escString k.data ++ ('"' :: ':' :: (encJson v ++ (encObjRest t ++ rest))))) =
            some (.obj (.cons k v t), rest)
          exact ih3 k v t rest hsz hd
    · intro h t rest hs hd
      have hJ := sizeJ_pos h
      have hL := sizeL_pos t
      show itemsStep (fun r => parseItems fuel r)
          (parseVal fuel (encJson h ++ (encArrRest t ++ rest))) = some (.arr (.cons h t), rest)
      rw [ih1 h (encArrRest t ++ rest) (by omega) (isDigitHead_encArrRest t rest)]
      cases t with
      | nil => rfl
      | cons h₂ t₂ =>
        have hsz₂ : sizeJ h₂ + sizeL t₂ ≤ fuel := by
          simp [sizeL] at hs
          omega
        simp only [encArrRest, List.cons_append, List.append_assoc]
        show (match parseItems fuel (encJson h₂ ++ (encArrRest t₂ ++ rest)) with
          | some (Json.arr vs, r₂) => some (Json.arr (JsonList.cons h vs), r₂)
          | _ => none) = some (Json.arr (JsonList.cons h (JsonList.cons h₂ t₂)), rest)
        rw [ih2 h₂ t₂ rest hsz₂ hd]
    · intro k v t rest hs hd
      have hJ := sizeJ_pos v
      have hF := sizeF_pos t
      have hkl : k.data.length < fuel + 1 := by
        have hlen : k.data.length = k.length := rfl
        omega
      show (match parseStrChars (fuel + 1)
            (escString k.data ++ ('"' :: ':' :: (encJson v ++ (encObjRest t ++ rest)))) with
        | some (ks, r₁) =>
          match r₁ with
          | [] => none
          | colon :: r₂ =>
            if colon = ':' then fieldsStep (fun r => parseFields fuel r) ks (parseVal fuel r₂)
            else none
        | none => none) = some (.obj (.cons k v t), rest)
      rw [parseStrChars_escString k.data (fuel + 1)
        (':' :: (encJson v ++ (encObjRest t ++ rest))) hkl]
      show fieldsStep (fun r => parseFields fuel r) k.data
          (parseVal fuel (encJson v ++ (encObjRest t ++ rest))) = some (.obj (.cons k v t), rest)
      rw [ih1 v (encObjRest t ++ rest) (by omega) (isDigitHead_encObjRest t rest)]
      cases t with
      | nil => rfl
      | cons k₂ v₂ t₂ =>
        have hsz₂ : k₂.data.length + sizeJ v₂ + sizeF t₂ ≤ fuel := by
          have hlen : k.data.length = k.length := rfl
          have hlen₂ : k₂.data.length = k₂.length := rfl
          simp [sizeF] at hs
          omega
        simp only [encObjRest, List.cons_append, List.append_assoc]
        show (match parseFields fuel
              ('"' :: (escString k₂.data ++ ('"' :: ':' :: (encJson v₂ ++ (encObjRest t₂ ++ rest))))) with
          | some (Json.obj fs, r₂) => some (Json.obj (JsonFields.cons k v fs), r₂)
          | _ => none) = some (Json.obj (JsonFields.cons k v (JsonFields.cons k₂ v₂ t₂)), rest)
        rw [ih3 k₂ v₂ t₂ rest hsz₂ hd]

theorem escChar_length_pos (c : Char) : 1 ≤ (escChar c).length := by
  rw [escChar]
  split_ifs <;> simp

theorem escString_length (cs : List Char) : cs.length ≤ (escString cs).length := by
  induction cs with
  | nil => simp [escString]
  | cons c tl ih =>
    rw [escString]
    simp only [List.length_append, List.length_cons]
    have := escChar_length_pos c
    omega

theorem natChars_length_pos (n : Nat) : 1 ≤ (natChars n).length := by
  obtain ⟨d, cs, hsh, _⟩ := natChars_shape n
  simp [hsh]

-- Fuel bound: the structural size of a value is below twice its serialized
-- length, so the fuel chosen by parseJsonString is always sufficient.
mutual

theorem sizeJ_lt_enc : ∀ v : Json, sizeJ v + 1 ≤ 2 * (encJson v).length
  | .null => by simp [sizeJ, encJson]
  | .bool b => by cases b <;> simp [sizeJ, encJson]
  | .num n => by
    have := natChars_length_pos n
    simp only [sizeJ, encJson]
    omega
  | .str s => by
    have := escString_length s.data
    simp only [sizeJ, encJson, List.length_cons, List.length_append, List.length_singleton]
    omega
  | .arr xs => by
    have := sizeL_lt_encArr xs
    simp only [sizeJ, encJson, List.length_cons]
    omega
  | .obj fs => by
    have := sizeF_lt_encObj fs
    simp only [sizeJ, encJson, List.length_cons]
    omega

theorem sizeL_lt_encArr : ∀ xs : JsonList, sizeL xs + 1 ≤ 2 * (encArr xs).length
  | .nil => by simp [sizeL, encArr]
  | .cons h t => by
    have h1 := sizeJ_lt_enc h
    have h2 := sizeL_lt_encArrRest t
    simp only [sizeL, encArr, List.length_append]
    omega

theorem sizeL_lt_encArrRest : ∀ xs : JsonList, sizeL xs + 1 ≤ 2 * (encArrRest xs).length
  | .nil => by simp [sizeL, encArrRest]
  | .cons h t => by
    have h1 := sizeJ_lt_enc h
    have h2 := sizeL_lt_encArrRest t
    simp only [sizeL, encArrRest, List.length_cons, List.length_append]
    omega

theorem sizeF_lt_encObj : ∀ fs : JsonFields, sizeF fs + 1 ≤ 2 * (encObj fs).length
  | .nil => by simp [sizeF, encObj]
  | .cons k v t => by
    have h1 := sizeJ_lt_enc v
    have h2 := sizeF_lt_encObjRest t
    have h3 := escString_length k.data
    simp only [sizeF, encObj, List.length_cons, List.length_append]
    omega

theorem sizeF_lt_encObjRest : ∀ fs : JsonFields, sizeF fs + 1 ≤ 2 * (encObjRest fs).length
  | .nil => by simp [sizeF, encObjRest]
  | .cons k v t => by
    have h1 := sizeJ_lt_enc v
    have h2 := sizeF_lt_encObjRest t
    have h3 := escString_length k.data
    simp only [sizeF, encObjRest, List.length_cons, List.length_append]
    omega

end

/-- The serializer-parser round trip: parsing the canonical serialization of
any JSON value returns that value. -/
theorem parseJsonString_encodeJsonString (v : Json) :
    parseJsonString (encodeJsonString v) = some v := by
  have hfuel : sizeJ v ≤ 2 * (encJson v).length + 1 := by
    have := sizeJ_lt_enc v
    omega
  have h := (parse_enc (2 * (encJson v).length + 1)).1 v [] hfuel rfl
  rw [List.append_nil] at h
  unfold parseJsonString encodeJsonString
  rw [h]

/-! Typed Object Store: models of src/services/redis.rs and
src/services/dataStore.rs. The Redis backend stores strings keyed by SET, GET
and DEL commands; the Postgres backend stores JSONB documents in the
key_value_store table. Transport failures are outside the model: the claims
speak about successful operations. -/

/-- Key-value state of the Redis server, as driven by the commands issued by
RedisClient. -/
def RedisMap : Type := String → Option String

/-- RedisClient.set: the SET command. -/
def RedisClient.set (m : RedisMap) (key value : String) : RedisMap :=
  fun x => if x = key then some value else m x

/-- RedisClient.get: the GET command. -/
def RedisClient.get (m : RedisMap) (key : String) : Option String := m key

/-- RedisClient.delete: the DEL command; returns whether the number of removed
keys was positive. -/
def RedisClient.delete (m : RedisMap) (key : String) : RedisMap × Bool :=
  (fun x => if x = key then none else m x, (m key).isSome)

/-- RedisStorage.store_json: serializes the value with to_string and stores
the string. -/
def RedisStorage.store_json (m : RedisMap) (key : String) (value : Json) : RedisMap :=
  RedisClient.set m key (encodeJsonString value)

/-- RedisStorage.retrieve_json: reads the string, if any, and parses it with
from_str; a parse failure is an error. -/
def RedisStorage.retrieve_json (m : RedisMap) (key : String) : Except String (Option Json) :=
  match RedisClient.get m key with
  | some value =>
    match parseJsonString value with
    | some j => .ok (some j)
    | none => .error "invalid json payload"
  | none => .ok none

/-- RedisStorage.delete, delegating to the DEL command. -/
def RedisStorage.delete (m : RedisMap) (key : String) : RedisMap × Bool :=
  RedisClient.delete m key

/-- The key_value_store table of the Postgres backend: key maps to the stored
JSONB document. -/
def PgTable : Type := String → Option Json

/-- PostgresStorage.store_json: INSERT ... ON CONFLICT (key) DO UPDATE, with
the serialized text cast to jsonb; the cast parses the text. -/
def PostgresStorage.store_json (t : PgTable) (key : String) (value : Json) :
    Except String PgTable :=
  match parseJsonString (encodeJsonString value) with
  | some j => .ok (fun x => if x = key then some j else t x)
  | none => .error "invalid input syntax for type json"

/-- PostgresStorage.retrieve_json: SELECT value::text re-serializes the JSONB
document, then from_str parses it. -/
def PostgresStorage.retrieve_json (t : PgTable) (key : String) : Except String (Option Json) :=
  match t key with
  | some j =>
    match parseJsonString (encodeJsonString j) with
    | some v => .ok (some v)
    | none => .error "invalid json payload"
  | none => .ok none

/-- PostgresStorage.delete: DELETE FROM key_value_store WHERE key = $1,
returning whether the number of affected rows was positive. -/
def PostgresStorage.delete (t : PgTable) (key : String) : PgTable × Bool :=
  (fun x => if x = key then none else t x, (t key).isSome)

/-- EventData (src/dna/mod.rs), the serializable event record, standing in for
an arbitrary Serialize + DeserializeOwned type of the typed layer. -/
structure EventData where
  block_number : Nat
  from_address : String
  timestamp : Nat
  transaction_hash : String
  data : List String
deriving DecidableEq

/-- Serialize a list of strings into a JSON array. -/
def stringListToJson : List String → JsonList
  | [] => .nil
  | s :: rest => .cons (.str s) (stringListToJson rest)

/-- Deserialize a JSON array of strings. -/
def jsonToStringList : JsonList → Option (List String)
  | .nil => some []
  | .cons (.str s) rest => (jsonToStringList rest).map (fun l => s :: l)
  | .cons _ _ => none

/-- serde_json to_value for EventData (derived Serialize impl). -/
def EventData.toJson (e : EventData) : Json :=
  .obj (.cons "block_number" (.num e.block_number)
    (.cons "from_address" (.str e.from_address)
      (.cons "timestamp" (.num e.timestamp)
        (.cons "transaction_hash" (.str e.transaction_hash)
          (.cons "data" (.arr (stringListToJson e.data)) .nil)))))

/-- Field lookup in a JSON object. -/
def getField : JsonFields → String → Option Json
  | .nil, _ => none
  | .cons k v rest, key => if k = key then some v else getField rest key

/-- serde_json from_value for EventData (derived Deserialize impl). -/
def EventData.ofJson : Json → Option EventData
  | .obj fs =>
    match getField fs "block_number", getField fs "from_address", getField fs "timestamp",
        getField fs "transaction_hash", getField fs "data" with
    | some (.num n), some (.str a), some (.num ts), some (.str h), some (.arr d) =>
      match jsonToStringList d with
      | some ds => some ⟨n, a, ts, h, ds⟩
      | none => none
    | _, _, _, _, _ => none
  | _ => none

/-- TypedStorage blanket impl, store on the Redis backend: to_value then
store_json. -/
def RedisStorage.storeEventData (m : RedisMap) (key : String) (e : EventData) : RedisMap :=
  RedisStorage.store_json m key e.toJson

/-- TypedStorage blanket impl, retrieve on the Redis backend: retrieve_json
then from_value. -/
def RedisStorage.retrieveEventData (m : RedisMap) (key : String) :
    Except String (Option EventData) :=
  match RedisStorage.retrieve_json m key with
  | .ok (some j) =>
    match EventData.ofJson j with
    | some e => .ok (some e)
    | none => .error "invalid typed payload"
  | .ok none => .ok none
  | .error msg => .error msg

/-- TypedStorage blanket impl, store on the Postgres backend. -/
def PostgresStorage.storeEventData (t : PgTable) (key : String) (e : EventData) :
    Except String PgTable :=
  PostgresStorage.store_json t key e.toJson

/-- TypedStorage blanket impl, retrieve on the Postgres backend. -/
def PostgresStorage.retrieveEventData (t : PgTable) (key : String) :
    Except String (Option EventData) :=
  match PostgresStorage.retrieve_json t key with
  | .ok (some j) =>
    match EventData.ofJson j with
    | some e => .ok (some e)
    | none => .error "invalid typed payload"
  | .ok none => .ok none
  | .error msg => .error msg

theorem jsonToStringList_stringListToJson (l : List String) :
    jsonToStringList (stringListToJson l) = some l := by
  induction l with
  | nil => rfl
  | cons s rest ih =>
    rw [stringListToJson, jsonToStringList, ih]
    rfl

theorem EventData.ofJson_toJson (e : EventData) : EventData.ofJson e.toJson = some e := by
  show (match jsonToStringList (stringListToJson e.data) with
    | some ds =>
        some (EventData.mk e.block_number e.from_address e.timestamp e.transaction_hash ds)
    | none => none) = some e
  rw [jsonToStringList_stringListToJson]

theorem redis_retrieve_after_store (m : RedisMap) (k : String) (v : Json) :
    RedisStorage.retrieve_json (RedisStorage.store_json m k v) k = .ok (some v) := by
  simp [RedisStorage.retrieve_json, RedisStorage.store_json, RedisClient.get,
    RedisClient.set, parseJsonString_encodeJsonString]

theorem postgres_store_ok (t : PgTable) (k : String) (v : Json) :
    PostgresStorage.store_json t k v = .ok (fun x => if x = k then some v else t x) := by
  unfold PostgresStorage.store_json
  rw [parseJsonString_encodeJsonString]

theorem postgres_retrieve_after_store (t : PgTable) (k : String) (v : Json) :
    PostgresStorage.retrieve_json (fun x => if x = k then some v else t x) k =
      .ok (some v) := by
  simp [PostgresStorage.retrieve_json, parseJsonString_encodeJsonString]

/-- Claim C8: for every JSON value and key, on either backend of the Typed Object
Store, a successful store followed by retrieve of the same key returns Some of
a value structurally equal to the stored one, both at the JSON-value level
(store_json and retrieve_json) and through the typed layer (the TypedStorage
blanket impl, instantiated at the EventData record type). -/
theorem c8_store_retrieve_roundtrip :
    (∀ (m : RedisMap) (k : String) (v : Json),
      RedisStorage.retrieve_json (RedisStorage.store_json m k v) k = .ok (some v)) ∧
    (∀ (t : PgTable) (k : String) (v : Json), ∃ t',
      PostgresStorage.store_json t k v = .ok t' ∧
      PostgresStorage.retrieve_json t' k = .ok (some v)) ∧
    (∀ (m : RedisMap) (k : String) (e : EventData),
      RedisStorage.retrieveEventData (RedisStorage.storeEventData m k e) k = .ok (some e)) ∧
    (∀ (t : PgTable) (k : String) (e : EventData), ∃ t',
      PostgresStorage.storeEventData t k e = .ok t' ∧
      PostgresStorage.retrieveEventData t' k = .ok (some e)) := by
  refine ⟨redis_retrieve_after_store, ?_, ?_, ?_⟩
  · intro t k v
    exact ⟨_, postgres_store_ok t k v, postgres_retrieve_after_store t k v⟩
  · intro m k e
    unfold RedisStorage.retrieveEventData RedisStorage.storeEventData
    rw [redis_retrieve_after_store]
    simp [EventData.ofJson_toJson]
  · intro t k e
    refine ⟨_, postgres_store_ok t k e.toJson, ?_⟩
    unfold PostgresStorage.retrieveEventData
    rw [postgres_retrieve_after_store]
    simp [EventData.ofJson_toJson]

/-- Claim C9: on either backend, delete returns true exactly when the key existed in
the store before the call, a subsequent retrieve of that key returns None, and
a second delete of the same key returns false rather than an error
(idempotence). -/
theorem c9_delete_semantics :
    (∀ (m : RedisMap) (k : String),
      (RedisStorage.delete m k).2 = (m k).isSome ∧
      RedisStorage.retrieve_json (RedisStorage.delete m k).1 k = .ok none ∧
      (RedisStorage.delete (RedisStorage.delete m k).1 k).2 = false) ∧
    (∀ (t : PgTable) (k : String),
      (PostgresStorage.delete t k).2 = (t k).isSome ∧
      PostgresStorage.retrieve_json (PostgresStorage.delete t k).1 k = .ok none ∧
      (PostgresStorage.delete (PostgresStorage.delete t k).1 k).2 = false) := by
  constructor
  · intro m k
    refine ⟨rfl, ?_, ?_⟩
    · simp [RedisStorage.retrieve_json, RedisStorage.delete, RedisClient.get,
        RedisClient.delete]
    · simp [RedisStorage.delete, RedisClient.delete]
  · intro t k
    refine ⟨rfl, ?_, ?_⟩
    · simp [PostgresStorage.retrieve_json, PostgresStorage.delete]
    · simp [PostgresStorage.delete]

/-! Configuration (src/config/mod.rs) and the checkpoint file
(IndexerService::save_block_state, load_block_state, get_state_file_path,
IndexerService::new in src/dna/mod.rs). -/

/-- Network selection. -/
inductive NetworkName where
  | Mainnet
  | Sepolia
deriving DecidableEq

/-- Config: the contract address Felt is modelled as a number. -/
structure Config where
  storage_url : String
  apibara_key : String
  network : NetworkName
  contract_address : Nat
  starting_block : Nat
  write_path : String
deriving DecidableEq

/-- Local file system contents by path, for the checkpoint file. -/
def FS : Type := String → Option String

/-- BlockState: the checkpoint record. -/
structure BlockState where
  last_processed_block : Nat
deriving DecidableEq

/-- serde_json to_string for BlockState. -/
def BlockState.toJsonString (b : BlockState) : String :=
  encodeJsonString (.obj (.cons "last_processed_block" (.num b.last_processed_block) .nil))

/-- serde_json from_str for BlockState. -/
def BlockState.ofJsonString (s : String) : Option BlockState :=
  match parseJsonString s with
  | some (.obj fs) =>
    match getField fs "last_processed_block" with
    | some (.num n) => some ⟨n⟩
    | _ => none
  | _ => none

/-- IndexerService::get_state_file_path: a fixed filename, not consulting the
configured write_path. -/
def get_state_file_path (_c : Config) : String := "indexer_state.json"

/-- IndexerService::save_block_state as a file-system transformation:
serialize the BlockState and write it at the state file path. -/
def save_block_state (c : Config) (fs : FS) (block_number : Nat) : FS :=
  fun p =>
    if p = get_state_file_path c then some (BlockState.toJsonString ⟨block_number⟩) else fs p

/-- IndexerService::load_block_state: a missing file is Ok none; otherwise the
contents are parsed as a BlockState, a parse failure being an error. -/
def load_block_state (c : Config) (fs : FS) : Except String (Option Nat) :=
  match fs (get_state_file_path c) with
  | none => .ok none
  | some content =>
    match BlockState.ofJsonString content with
    | some st => .ok (some st.last_processed_block)
    | none => .error "invalid state file"

/-- apibara DataFinality. -/
inductive DataFinality where
  | unknown
  | pending
  | accepted
  | finalized
deriving DecidableEq

/-- Subscription Configuration as built in IndexerService::new: a starting
block, DataStatusPending finality, and one from_address event filter. -/
structure Configuration where
  starting_block : Nat
  finality : DataFinality
  filter_address : Nat
deriving DecidableEq

/-- Configuration::default().with_starting_block(b).with_finality(Pending)
.with_filter(header weak, event from_address addr). -/
def mkStreamConfig (startingBlock : Nat) (address : Nat) : Configuration :=
  ⟨startingBlock, .pending, address⟩

/-- The Indexer Service value constructed by IndexerService::new. -/
structure IndexerService where
  config : Config
  uri : String
  stream_config : Configuration
deriving DecidableEq

/-- IndexerService::new: build the service with the configured starting block,
then, when a saved block state loads successfully, rebuild the stream
configuration with the loaded block number. -/
def IndexerService.new (config : Config) (fs : FS) : IndexerService :=
  let uri := match config.network with
    | .Mainnet => "https://mainnet.starknet.a5a.ch"
    | .Sepolia => "https://sepolia.starknet.a5a.ch"
  let service : IndexerService :=
    ⟨config, uri, mkStreamConfig config.starting_block config.contract_address⟩
  match load_block_state config fs with
  | .ok (some block_number) =>
    { service with stream_config := mkStreamConfig block_number config.contract_address }
  | _ => service

theorem BlockState.ofJsonString_toJsonString (b : BlockState) :
    BlockState.ofJsonString (BlockState.toJsonString b) = some b := by
  unfold BlockState.ofJsonString BlockState.toJsonString
  rw [parseJsonString_encodeJsonString]
  rfl

/-- A configuration whose default starting block is 500. -/
def cfgDefault500 : Config :=
  ⟨"redis://127.0.0.1:6379", "key", .Mainnet, 1, 500, "indexer_state.json"⟩

/-- A file system holding a checkpoint of 100 at the fixed state file path. -/
def fsCheckpoint100 : FS := save_block_state cfgDefault500 (fun _ => none) 100

/-- Claim C1, counterexample: with a checkpoint of 100 and a configured default of
500, loading succeeds with 100 and the Subscription Configuration is built
with starting block 100, not max(100, 500) = 500. -/
theorem c1_counterexample :
    load_block_state cfgDefault500 fsCheckpoint100 = .ok (some 100) ∧
    (IndexerService.new cfgDefault500 fsCheckpoint100).stream_config.starting_block = 100 ∧
    max 100 cfgDefault500.starting_block = 500 ∧
    (IndexerService.new cfgDefault500 fsCheckpoint100).stream_config.starting_block ≠
      max 100 cfgDefault500.starting_block :=
  ⟨rfl, rfl, rfl, by decide⟩

/-- Claim C1, amended: the effective starting block used to build the Subscription
Configuration equals the loaded checkpoint value itself whenever loading
succeeds with a value (even when that value is below the configured default),
and equals the configured default when no checkpoint exists or loading fails. -/
theorem c1_effective_starting_block (c : Config) (fs : FS) :
    (∀ b, load_block_state c fs = .ok (some b) →
      (IndexerService.new c fs).stream_config.starting_block = b) ∧
    (load_block_state c fs = .ok none →
      (IndexerService.new c fs).stream_config.starting_block = c.starting_block) ∧
    (∀ msg, load_block_state c fs = .error msg →
      (IndexerService.new c fs).stream_config.starting_block = c.starting_block) := by
  refine ⟨?_, ?_, ?_⟩
  · intro b hb
    simp [IndexerService.new, hb, mkStreamConfig]
  · intro hb
    simp [IndexerService.new, hb, mkStreamConfig]
  · intro msg hmsg
    simp [IndexerService.new, hmsg, mkStreamConfig]

/-- Claim C1, witness for the amended theorem at the concrete checkpoint of 100. -/
theorem c1_effective_starting_block_witness :
    load_block_state cfgDefault500 fsCheckpoint100 = .ok (some 100) ∧
    (IndexerService.new cfgDefault500 fsCheckpoint100).stream_config.starting_block = 100 :=
  ⟨rfl, (c1_effective_starting_block cfgDefault500 fsCheckpoint100).1 100 rfl⟩

/-- A configuration whose write_path differs from the fixed state filename. -/
def cfgCustomPath : Config :=
  ⟨"redis://127.0.0.1:6379", "key", .Mainnet, 1, 0, "custom_state.json"⟩

/-- Claim C3, counterexample: with write_path configured to custom_state.json, the
state file path is still the fixed indexer_state.json, and saving writes
nothing at the configured location. -/
theorem c3_counterexample :
    cfgCustomPath.write_path = "custom_state.json" ∧
    get_state_file_path cfgCustomPath ≠ cfgCustomPath.write_path ∧
    save_block_state cfgCustomPath (fun _ => none) 7 cfgCustomPath.write_path = none ∧
    save_block_state cfgCustomPath (fun _ => none) 7 "indexer_state.json" =
      some (BlockState.toJsonString ⟨7⟩) :=
  ⟨rfl, by decide, rfl, rfl⟩

/-- Claim C3, amended: the checkpoint record is written as the single JSON object
with field last_processed_block, but always under the fixed filename
indexer_state.json, for every configuration: save writes exactly that object
at the fixed path and touches no other path, and load reads the same fixed
path back (the configured write_path / WRITE_PATH is ignored by both). -/
theorem c3_checkpoint_fixed_path (c : Config) (fs : FS) (n : Nat) :
    get_state_file_path c = "indexer_state.json" ∧
    save_block_state c fs n "indexer_state.json" =
      some (encodeJsonString (.obj (.cons "last_processed_block" (.num n) .nil))) ∧
    (∀ p, p ≠ "indexer_state.json" → save_block_state c fs n p = fs p) ∧
    load_block_state c (save_block_state c fs n) = .ok (some n) := by
  refine ⟨rfl, ?_, ?_, ?_⟩
  · simp [save_block_state, get_state_file_path, BlockState.toJsonString]
  · intro p hp
    simp [save_block_state, get_state_file_path, hp]
  · unfold load_block_state save_block_state
    rw [if_pos rfl]
    show (match BlockState.ofJsonString (BlockState.toJsonString ⟨n⟩) with
      | some st => Except.ok (some st.last_processed_block)
      | none => Except.error "invalid state file") = Except.ok (some n)
    rw [BlockState.ofJsonString_toJsonString]

/-- Claim C3, witness for the amended theorem at block 7 and a distinct path. -/
theorem c3_checkpoint_fixed_path_witness :
    (("custom_state.json" : String) ≠ "indexer_state.json") ∧
    save_block_state cfgCustomPath (fun _ => none) 7 "custom_state.json" =
      (fun _ => none : FS) "custom_state.json" ∧
    load_block_state cfgCustomPath (save_block_state cfgCustomPath (fun _ => none) 7) =
      .ok (some 7) :=
  ⟨by decide,
    (c3_checkpoint_fixed_path cfgCustomPath (fun _ => none) 7).2.2.1 "custom_state.json"
      (by decide),
    (c3_checkpoint_fixed_path cfgCustomPath (fun _ => none) 7).2.2.2⟩

/-! The Indexer Loop (IndexerService::run_forever_simplified in
src/dna/mod.rs), as a function of the sequence of observed stream results.
The hand-off queue send and the checkpoint persistence are the two effects;
the environment fixes when the consuming end of the queue is dropped and
which checkpoint write attempts fail. -/

/-- Opaque event payload forwarded by the loop (the apibara Event moved into
the hand-off queue). -/
structure Event where
  id : Nat
deriving DecidableEq

/-- apibara EventWithTransaction: the event field may be absent. -/
structure EventWithTransaction where
  event : Option Event
deriving DecidableEq

/-- Block header, restricted to the field the loop reads. -/
structure BlockHeader where
  block_number : Nat
deriving DecidableEq

/-- apibara starknet Block, restricted to the fields the loop reads. -/
structure Block where
  header : Option BlockHeader
  events : List EventWithTransaction
deriving DecidableEq

/-- Invalidation cursor. -/
structure Cursor where
  order_key : Nat
deriving DecidableEq

/-- apibara DataMessage. -/
inductive DataMessage where
  | dataMsg (finality : DataFinality) (batch : List Block)
  | invalidate (cursor : Option Cursor)
  | heartbeat
deriving DecidableEq

/-- One observation of stream.try_next: a message or a transport error. The
end of the item list models Ok(None), the end of the stream. -/
inductive StreamItem where
  | item (m : DataMessage)
  | streamError (e : String)
deriving DecidableEq

/-- Environment of one loop run: after how many successful sends the
consuming end of the hand-off queue is dropped (none: never), and which
checkpoint write attempts fail. -/
structure Env where
  dropAfter : Option Nat
  saveFails : Nat → Bool

/-- State of one loop run: the pending-block latch, the events successfully
pushed into the hand-off queue in order, the checkpoint values successfully
persisted in order, and counters of sends and save attempts. -/
structure LoopState where
  reachedPending : Bool
  sent : List Event
  sendCount : Nat
  writes : List Nat
  saveCount : Nat
deriving DecidableEq

/-- Whether a send on the unbounded channel succeeds: it fails exactly when
the receiving end has been dropped. -/
def sendOk (env : Env) (count : Nat) : Bool :=
  match env.dropAfter with
  | none => true
  | some k => decide (count < k)

/-- tx.send: on success the event is enqueued; the returned flag is is_err. -/
def tx_send (env : Env) (st : LoopState) (e : Event) : LoopState × Bool :=
  if sendOk env st.sendCount then
    ({ st with sent := st.sent ++ [e], sendCount := st.sendCount + 1 }, false)
  else (st, true)

/-- The loop's save_block_state call under the failure oracle: a successful
attempt appends the block number to the history of persisted checkpoints, a
failed attempt is only logged. -/
def attemptSave (env : Env) (st : LoopState) (n : Nat) : LoopState :=
  if env.saveFails st.saveCount then { st with saveCount := st.saveCount + 1 }
  else { st with saveCount := st.saveCount + 1, writes := st.writes ++ [n] }

/-- block.header.as_ref().map(|hdr| hdr.block_number).unwrap_or(0). -/
def block_number_of (b : Block) : Nat :=
  (b.header.map (fun hdr => hdr.block_number)).getD 0

/-- Inner event loop: each present event is sent; a failed send returns
immediately (receiver dropped), reported in the flag. -/
def processEvents (env : Env) : LoopState → List EventWithTransaction → LoopState × Bool
  | st, [] => (st, false)
  | st, ev :: rest =>
    match ev.event with
    | some e =>
      match tx_send env st e with
      | (st', false) => processEvents env st' rest
      | (st', true) => (st', true)
    | none => processEvents env st rest

/-- Per-block processing: the events first, then the checkpoint save attempt
with its error swallowed; when the receiver was dropped mid-block the save is
skipped and the loop returns. -/
def processBlock (env : Env) (st : LoopState) (b : Block) : LoopState × Bool :=
  match processEvents env st b.events with
  | (st', true) => (st', true)
  | (st', false) => (attemptSave env st' (block_number_of b), false)

/-- The `for block in batch` loop. -/
def processBatch (env : Env) : LoopState → List Block → LoopState × Bool
  | st, [] => (st, false)
  | st, b :: rest =>
    match processBlock env st b with
    | (st', true) => (st', true)
    | (st', false) => processBatch env st' rest

/-- Result of run_forever_simplified: Ok, or one of the two error families it
returns. -/
inductive RunResult where
  | ok
  | errInvalidate (cursor : Option Cursor)
  | errStream (e : String)
deriving DecidableEq

/-- Outcome of one loop iteration: continue, or return from the function. -/
inductive StepOut where
  | next (st : LoopState)
  | stop (r : RunResult) (st : LoopState)
deriving DecidableEq

/-- The reached_pending_block latch. -/
def latchUpdate (st : LoopState) (finality : DataFinality) : LoopState :=
  if finality = .pending ∧ st.reachedPending = false then { st with reachedPending := true }
  else st

/-- One iteration of the run_forever_simplified match: Data processes the
batch (a dropped receiver returns Ok), Invalidate returns an error carrying
the cursor or its absence, Heartbeat only logs, a stream error returns an
error. -/
def processMsg (env : Env) (st : LoopState) : StreamItem → StepOut
  | .item (.dataMsg finality batch) =>
    match processBatch env (latchUpdate st finality) batch with
    | (st', true) => .stop .ok st'
    | (st', false) => .next st'
  | .item (.invalidate cursor) => .stop (.errInvalidate cursor) st
  | .item .heartbeat => .next st
  | .streamError e => .stop (.errStream e) st

/-- The run_forever_simplified loop over the observed stream items; an
exhausted list is the end-of-stream break followed by Ok. -/
def processMsgs (env : Env) : LoopState → List StreamItem → RunResult × LoopState
  | st, [] => (.ok, st)
  | st, m :: rest =>
    match processMsg env st m with
    | .next st' => processMsgs env st' rest
    | .stop r st' => (r, st')

/-- Initial loop state. -/
def initState : LoopState := ⟨false, [], 0, [], 0⟩

/-- A prefix run that completes every message without returning. -/
def processAll (env : Env) : LoopState → List StreamItem → Option LoopState
  | st, [] => some st
  | st, m :: rest =>
    match processMsg env st m with
    | .next st' => processAll env st' rest
    | .stop _ _ => none

/-- Events of a block that are present, in order. -/
def eventsOfBlock (b : Block) : List Event :=
  b.events.filterMap (fun ev => ev.event)

/-- Events of a batch, in block order. -/
def batchEvents : List Block → List Event
  | [] => []
  | b :: rest => eventsOfBlock b ++ batchEvents rest

/-- Events carried by a list of stream items, in arrival order. -/
def eventsOfMsgs : List StreamItem → List Event
  | [] => []
  | .item (.dataMsg _ batch) :: rest => batchEvents batch ++ eventsOfMsgs rest
  | _ :: rest => eventsOfMsgs rest

/-- The checkpoint values the loop attempts to persist, in order: one per
block of each Data batch. -/
def attemptedWrites : List StreamItem → List Nat
  | [] => []
  | .item (.dataMsg _ batch) :: rest => batch.map block_number_of ++ attemptedWrites rest
  | _ :: rest => attemptedWrites rest

/-- Whether a stream item is a Data or Heartbeat message. -/
def isDataOrHeartbeat : StreamItem → Bool
  | .item (.dataMsg _ _) => true
  | .item .heartbeat => true
  | _ => false

theorem latchUpdate_fields (st : LoopState) (f : DataFinality) :
    (latchUpdate st f).sent = st.sent ∧ (latchUpdate st f).sendCount = st.sendCount ∧
      (latchUpdate st f).writes = st.writes ∧ (latchUpdate st f).saveCount = st.saveCount := by
  unfold latchUpdate
  split
  · exact ⟨rfl, rfl, rfl, rfl⟩
  · exact ⟨rfl, rfl, rfl, rfl⟩

theorem sendOk_nodrop (env : Env) (hdrop : env.dropAfter = none) (count : Nat) :
    sendOk env count = true := by
  unfold sendOk
  rw [hdrop]

theorem tx_send_nodrop (env : Env) (hdrop : env.dropAfter = none) (st : LoopState)
    (e : Event) :
    tx_send env st e =
      ({ st with sent := st.sent ++ [e], sendCount := st.sendCount + 1 }, false) := by
  unfold tx_send
  rw [if_pos (sendOk_nodrop env hdrop st.sendCount)]

theorem attemptSave_nofail (env : Env) (hsave : ∀ i, env.saveFails i = false)
    (st : LoopState) (n : Nat) :
    attemptSave env st n =
      { st with saveCount := st.saveCount + 1, writes := st.writes ++ [n] } := by
  unfold attemptSave
  rw [hsave]
  simp

theorem processEvents_nodrop (env : Env) (hdrop : env.dropAfter = none)
    (evs : List EventWithTransaction) :
    ∀ st : LoopState,
      processEvents env st evs =
        ({ st with
            sent := st.sent ++ evs.filterMap (fun ev => ev.event),
            sendCount := st.sendCount + (evs.filterMap (fun ev => ev.event)).length }, false) := by
  induction evs with
  | nil =>
    intro st
    simp [processEvents]
  | cons ev rest ih =>
    intro st
    cases hev : ev.event with
    | none =>
      rw [processEvents, hev]
      rw [ih st]
      simp [List.filterMap_cons, hev]
    | some e =>
      simp only [processEvents, hev]
      rw [tx_send_nodrop env hdrop st e]
      show processEvents env { st with sent := st.sent ++ [e], sendCount := st.sendCount + 1 }
        rest = _
      rw [ih { st with sent := st.sent ++ [e], sendCount := st.sendCount + 1 }]
      simp [List.filterMap_cons, hev]
      omega

theorem processBlock_nodrop_nofail (env : Env) (hdrop : env.dropAfter = none)
    (hsave : ∀ i, env.saveFails i = false) (st : LoopState) (b : Block) :
    processBlock env st b =
      ({ st with
          sent := st.sent ++ eventsOfBlock b,
          sendCount := st.sendCount + (eventsOfBlock b).length,
          writes := st.writes ++ [block_number_of b],
          saveCount := st.saveCount + 1 }, false) := by
  unfold processBlock
  rw [processEvents_nodrop env hdrop b.events st]
  show (attemptSave env
      { st with
          sent := st.sent ++ b.events.filterMap (fun ev => ev.event),
          sendCount := st.sendCount + (b.events.filterMap (fun ev => ev.event)).length }
      (block_number_of b), false) = _
  rw [attemptSave_nofail env hsave]
  simp [eventsOfBlock]

theorem processBatch_nodrop_nofail (env : Env) (hdrop : env.dropAfter = none)
    (hsave : ∀ i, env.saveFails i = false) (blocks : List Block) :
    ∀ st : LoopState,
      processBatch env st blocks =
        ({ st with
            sent := st.sent ++ batchEvents blocks,
            sendCount := st.sendCount + (batchEvents blocks).length,
            writes := st.writes ++ blocks.map block_number_of,
            saveCount := st.saveCount + blocks.length }, false) := by
  induction blocks with
  | nil =>
    intro st
    simp [processBatch, batchEvents]
  | cons b bs ih =>
    intro st
    rw [processBatch, processBlock_nodrop_nofail env hdrop hsave st b]
    show processBatch env
        { st with
            sent := st.sent ++ eventsOfBlock b,
            sendCount := st.sendCount + (eventsOfBlock b).length,
            writes := st.writes ++ [block_number_of b],
            saveCount := st.saveCount + 1 } bs = _
    rw [ih _]
    simp [batchEvents, List.append_assoc]
    omega

theorem processMsgs_nodrop_nofail (env : Env) (hdrop : env.dropAfter = none)
    (hsave : ∀ i, env.saveFails i = false) (msgs : List StreamItem) :
    ∀ st : LoopState, (∀ m ∈ msgs, isDataOrHeartbeat m = true) →
      (processMsgs env st msgs).1 = .ok ∧
      (processMsgs env st msgs).2.sent = st.sent ++ eventsOfMsgs msgs ∧
      (processMsgs env st msgs).2.writes = st.writes ++ attemptedWrites msgs := by
  induction msgs with
  | nil =>
    intro st _
    simp [processMsgs, eventsOfMsgs, attemptedWrites]
  | cons m rest ih =>
    intro st hmem
    cases m with
    | item msg =>
      cases msg with
      | dataMsg f batch =>
        rw [processMsgs, processMsg,
          processBatch_nodrop_nofail env hdrop hsave batch (latchUpdate st f)]
        obtain ⟨hsent, _, hwrites, _⟩ := latchUpdate_fields st f
        obtain ⟨h1, h2, h3⟩ := ih _ (fun x hx => hmem x (by simp [hx]))
        refine ⟨h1, ?_, ?_⟩
        · rw [h2]
          simp [eventsOfMsgs, hsent, List.append_assoc]
        · rw [h3]
          simp [attemptedWrites, hwrites, List.append_assoc]
      | invalidate cursor =>
        have := hmem (.item (.invalidate cursor)) (by simp)
        simp [isDataOrHeartbeat] at this
      | heartbeat =>
        rw [processMsgs, processMsg]
        obtain ⟨h1, h2, h3⟩ := ih st (fun x hx => hmem x (by simp [hx]))
        exact ⟨h1, by rw [h2]; rfl, by rw [h3]; rfl⟩
    | streamError e =>
      have := hmem (.streamError e) (by simp)
      simp [isDataOrHeartbeat] at this

/-- Claim C7: for every run over Data and Heartbeat messages in which the consumer
stays alive and checkpoint persistence succeeds, the loop finishes with Ok,
the events enqueued into the hand-off queue are exactly the present events in
arrival order across blocks and within each block, and the checkpoints are
written per block in arrival order. -/
theorem c7_fifo_order (env : Env) (st : LoopState) (msgs : List StreamItem)
    (hdrop : env.dropAfter = none) (hsave : ∀ i, env.saveFails i = false)
    (hmsgs : ∀ m ∈ msgs, isDataOrHeartbeat m = true) :
    (processMsgs env st msgs).1 = .ok ∧
    (processMsgs env st msgs).2.sent = st.sent ++ eventsOfMsgs msgs ∧
    (processMsgs env st msgs).2.writes = st.writes ++ attemptedWrites msgs :=
  processMsgs_nodrop_nofail env hdrop hsave msgs st hmsgs

/-- An environment where the consumer never drops and no save fails. -/
def envHealthy : Env := ⟨none, fun _ => false⟩

/-- The scenario batch: block 10 with two events, block 11 with none. -/
def msgsScenario : List StreamItem :=
  [.item (.dataMsg .accepted
    [⟨some ⟨10⟩, [⟨some ⟨1⟩⟩, ⟨some ⟨2⟩⟩]⟩, ⟨some ⟨11⟩, []⟩])]

/-- Claim C7, witness: the scenario batch with blocks 10 and 11 enqueues exactly the
two events in order and writes checkpoints 10 then 11. -/
theorem c7_fifo_order_witness :
    (∀ m ∈ msgsScenario, isDataOrHeartbeat m = true) ∧
    (processMsgs envHealthy initState msgsScenario).1 = .ok ∧
    (processMsgs envHealthy initState msgsScenario).2.sent = [⟨1⟩, ⟨2⟩] ∧
    (processMsgs envHealthy initState msgsScenario).2.writes = [10, 11] := by
  have h := c7_fifo_order envHealthy initState msgsScenario rfl (fun _ => rfl) (by decide)
  exact ⟨by decide, h.1, h.2.1.trans rfl, h.2.2.trans rfl⟩

/-- Claim C10: a Data block whose header is absent is processed with block number 0:
its present events are still enqueued, and the checkpoint persisted for it is
0. -/
theorem c10_missing_header (env : Env) (st : LoopState) (b : Block)
    (hheader : b.header = none) (hdrop : env.dropAfter = none)
    (hsave : ∀ i, env.saveFails i = false) :
    block_number_of b = 0 ∧
    processBlock env st b =
      ({ st with
          sent := st.sent ++ eventsOfBlock b,
          sendCount := st.sendCount + (eventsOfBlock b).length,
          writes := st.writes ++ [0],
          saveCount := st.saveCount + 1 }, false) := by
  have h0 : block_number_of b = 0 := by simp [block_number_of, hheader]
  refine ⟨h0, ?_⟩
  rw [processBlock_nodrop_nofail env hdrop hsave st b, h0]

/-- A block with no header carrying one event. -/
def blockNoHeader : Block := ⟨none, [⟨some ⟨9⟩⟩]⟩

/-- Claim C10, witness: the headerless block is checkpointed as 0 with its event
enqueued. -/
theorem c10_missing_header_witness :
    blockNoHeader.header = none ∧
    processBlock envHealthy initState blockNoHeader =
      (⟨false, [⟨9⟩], 1, [0], 1⟩, false) := by
  have h := c10_missing_header envHealthy initState blockNoHeader rfl rfl (fun _ => rfl)
  exact ⟨rfl, h.2.trans rfl⟩

/-- Claim C4: when processing a Data batch hits a failed push (the consuming end of
the hand-off queue was dropped), the loop returns Ok with the state at the
failure point: it does not error, and the remaining stream items are never
pulled. -/
theorem c4_receiver_dropped (env : Env) (st st' : LoopState) (finality : DataFinality)
    (batch : List Block) (rest : List StreamItem)
    (hfail : processBatch env (latchUpdate st finality) batch = (st', true)) :
    processMsg env st (.item (.dataMsg finality batch)) = .stop .ok st' ∧
    processMsgs env st (.item (.dataMsg finality batch) :: rest) = (.ok, st') := by
  have hm : processMsg env st (.item (.dataMsg finality batch)) = .stop .ok st' := by
    simp only [processMsg]
    rw [hfail]
  exact ⟨hm, by rw [processMsgs, hm]⟩

/-- An environment whose consumer is dropped before any send succeeds. -/
def envDropped : Env := ⟨some 0, fun _ => false⟩

/-- A block carrying one event. -/
def blockOneEvent : Block := ⟨some ⟨1⟩, [⟨some ⟨5⟩⟩]⟩

/-- Claim C4, witness: with the receiver dropped, the single-event batch makes the
loop return Ok immediately, even though an Invalidate message is queued right
behind it. -/
theorem c4_receiver_dropped_witness :
    processBatch envDropped (latchUpdate initState .accepted) [blockOneEvent] =
      (initState, true) ∧
    processMsgs envDropped initState
      (.item (.dataMsg .accepted [blockOneEvent]) :: [.item (.invalidate none)]) =
      (.ok, initState) := by
  have h := c4_receiver_dropped envDropped initState initState .accepted [blockOneEvent]
    [.item (.invalidate none)] rfl
  exact ⟨rfl, h.2⟩

/-- Claim C5: when the messages before an Invalidate all continue the loop, the run
returns the invalidate failure carrying the offending cursor (or its absence),
with exactly the state reached before the invalidation: no checkpoint is
persisted at or after the invalidation point, and the remaining items are
never pulled. -/
theorem c5_invalidate (env : Env) (cursor : Option Cursor) (pre : List StreamItem) :
    ∀ (st st₁ : LoopState) (rest : List StreamItem),
      processAll env st pre = some st₁ →
      processMsgs env st (pre ++ .item (.invalidate cursor) :: rest) =
        (.errInvalidate cursor, st₁) ∧
      (processMsgs env st (pre ++ .item (.invalidate cursor) :: rest)).2.writes =
        st₁.writes := by
  induction pre with
  | nil =>
    intro st st₁ rest hpre
    have hst : st = st₁ := by
      simpa [processAll] using hpre
    subst hst
    constructor
    · rw [List.nil_append, processMsgs]
      rfl
    · rw [List.nil_append, processMsgs]
      rfl
  | cons m pre' ih =>
    intro st st₁ rest hpre
    rw [processAll] at hpre
    cases hm : processMsg env st m with
    | next st' =>
      rw [hm] at hpre
      have h := ih st' st₁ rest hpre
      constructor
      · rw [List.cons_append, processMsgs, hm]
        exact h.1
      · rw [List.cons_append, processMsgs, hm]
        exact h.2
    | stop r s =>
      rw [hm] at hpre
      simp at hpre

/-- The prefix before the invalidation: one Data batch writing checkpoint 10. -/
def preInvalidate : List StreamItem := [.item (.dataMsg .accepted [⟨some ⟨10⟩, []⟩])]

/-- The items after the invalidation: a Data batch that would write 12. -/
def postInvalidate : List StreamItem := [.item (.dataMsg .accepted [⟨some ⟨12⟩, []⟩])]

/-- Claim C5, witness: after checkpointing block 10, an Invalidate with cursor 11
fails the run with that cursor and the persisted checkpoints stay [10]; the
Data batch queued behind the invalidation is never processed. -/
theorem c5_invalidate_witness :
    processAll envHealthy initState preInvalidate = some ⟨false, [], 0, [10], 1⟩ ∧
    processMsgs envHealthy initState
        (preInvalidate ++ .item (.invalidate (some ⟨11⟩)) :: postInvalidate) =
      (.errInvalidate (some ⟨11⟩), ⟨false, [], 0, [10], 1⟩) := by
  have h := c5_invalidate envHealthy (some ⟨11⟩) preInvalidate initState
    ⟨false, [], 0, [10], 1⟩ postInvalidate rfl
  exact ⟨rfl, h.1⟩

theorem processEvents_writes (env : Env) (evs : List EventWithTransaction) :
    ∀ st : LoopState, ((processEvents env st evs).1).writes = st.writes ∧
      ((processEvents env st evs).1).saveCount = st.saveCount := by
  induction evs with
  | nil =>
    intro st
    exact ⟨rfl, rfl⟩
  | cons ev rest ih =>
    intro st
    cases hev : ev.event with
    | none =>
      simp only [processEvents, hev]
      exact ih st
    | some e =>
      simp only [processEvents, hev, tx_send]
      cases hok : sendOk env st.sendCount with
      | true =>
        rw [if_pos rfl]
        exact ih _
      | false =>
        rw [if_neg (by simp [hok])]
        exact ⟨rfl, rfl⟩

theorem processBlock_writes (env : Env) (st : LoopState) (b : Block) :
    ∃ w, ((processBlock env st b).1).writes = st.writes ++ w ∧
      List.Sublist w [block_number_of b] := by
  obtain ⟨hw, hc⟩ := processEvents_writes env b.events st
  unfold processBlock
  cases hpe : processEvents env st b.events with
  | mk st' dr =>
    rw [hpe] at hw hc
    cases dr with
    | true =>
      exact ⟨[], by simpa using hw, List.nil_sublist _⟩
    | false =>
      cases hsf : env.saveFails st'.saveCount with
      | true =>
        refine ⟨[], ?_, List.nil_sublist _⟩
        show (attemptSave env st' (block_number_of b)).writes = st.writes ++ []
        unfold attemptSave
        rw [if_pos hsf]
        simpa using hw
      | false =>
        refine ⟨[block_number_of b], ?_, List.Sublist.refl _⟩
        show (attemptSave env st' (block_number_of b)).writes =
          st.writes ++ [block_number_of b]
        unfold attemptSave
        rw [if_neg (by simp [hsf])]
        simpa using congrArg (fun l => l ++ [block_number_of b]) (by simpa using hw)

theorem processBatch_writes (env : Env) (blocks : List Block) :
    ∀ st : LoopState, ∃ w, ((processBatch env st blocks).1).writes = st.writes ++ w ∧
      List.Sublist w (blocks.map block_number_of) := by
  induction blocks with
  | nil =>
    intro st
    exact ⟨[], by simp [processBatch], List.nil_sublist _⟩
  | cons b bs ih =>
    intro st
    obtain ⟨w₁, hw₁, hs₁⟩ := processBlock_writes env st b
    rw [processBatch]
    cases hpb : processBlock env st b with
    | mk st' dr =>
      rw [hpb] at hw₁
      cases dr with
      | true =>
        refine ⟨w₁, hw₁, ?_⟩
        exact hs₁.trans (List.cons_sublist_cons.mpr (List.nil_sublist _))
      | false =>
        obtain ⟨w₂, hw₂, hs₂⟩ := ih st'
        refine ⟨w₁ ++ w₂, ?_, ?_⟩
        · rw [hw₂, hw₁, List.append_assoc]
        · simpa using List.Sublist.append hs₁ hs₂

theorem processMsgs_writes (env : Env) (msgs : List StreamItem) :
    ∀ st : LoopState, ∃ w, ((processMsgs env st msgs).2).writes = st.writes ++ w ∧
      List.Sublist w (attemptedWrites msgs) := by
  induction msgs with
  | nil =>
    intro st
    exact ⟨[], by simp [processMsgs, attemptedWrites], List.nil_sublist _⟩
  | cons m rest ih =>
    intro st
    cases m with
    | item msg =>
      cases msg with
      | dataMsg f batch =>
        rw [processMsgs, processMsg]
        obtain ⟨w₁, hw₁, hs₁⟩ := processBatch_writes env batch (latchUpdate st f)
        obtain ⟨_, _, hlw, _⟩ := latchUpdate_fields st f
        rw [hlw] at hw₁
        cases hpb : processBatch env (latchUpdate st f) batch with
        | mk st' dr =>
          rw [hpb] at hw₁
          cases dr with
          | true =>
            refine ⟨w₁, hw₁, ?_⟩
            rw [attemptedWrites]
            exact hs₁.trans (List.sublist_append_left _ _)
          | false =>
            obtain ⟨w₂, hw₂, hs₂⟩ := ih st'
            refine ⟨w₁ ++ w₂, ?_, ?_⟩
            · rw [hw₂, hw₁, List.append_assoc]
            · rw [attemptedWrites]
              exact List.Sublist.append hs₁ hs₂
      | invalidate cursor =>
        show ∃ w, st.writes = st.writes ++ w ∧ List.Sublist w (attemptedWrites rest)
        exact ⟨[], by simp, List.nil_sublist _⟩
      | heartbeat =>
        show ∃ w, ((processMsgs env st rest).2).writes = st.writes ++ w ∧
          List.Sublist w (attemptedWrites rest)
        exact ih st
    | streamError e =>
      show ∃ w, st.writes = st.writes ++ w ∧ List.Sublist w (attemptedWrites rest)
      exact ⟨[], by simp, List.nil_sublist _⟩

/-- A batch whose block numbers arrive in descending order. -/
def msgsDescending : List StreamItem :=
  [.item (.dataMsg .accepted [⟨some ⟨5⟩, []⟩, ⟨some ⟨3⟩, []⟩])]

/-- Claim C2, counterexample: a Data batch delivering block 5 before block 3 makes
the loop persist checkpoint 5 and then checkpoint 3, so the persisted
last_processed_block values are not monotonically non-decreasing. -/
theorem c2_counterexample :
    (processMsgs envHealthy initState msgsDescending).2.writes = [5, 3] ∧
    ¬ List.Pairwise (fun a b => a ≤ b)
      ((processMsgs envHealthy initState msgsDescending).2.writes) :=
  ⟨rfl, by decide⟩

/-- Claim C2, amended: the persisted checkpoint values of one run are pairwise
non-decreasing provided the stream delivers the blocks of its Data batches
with non-decreasing block numbers; the loop persists checkpoints in arrival
order and skips failed writes, so the persisted sequence is a sublist of the
arrival-order block numbers. The code itself does not enforce the ordering:
a descending batch persists a decreasing sequence. -/
theorem c2_monotone_writes (env : Env) (msgs : List StreamItem)
    (hmono : List.Pairwise (fun a b => a ≤ b) (attemptedWrites msgs)) :
    List.Pairwise (fun a b => a ≤ b) ((processMsgs env initState msgs).2.writes) := by
  obtain ⟨w, hw, hsub⟩ := processMsgs_writes env msgs initState
  rw [hw]
  have hinit : initState.writes = [] := rfl
  rw [hinit, List.nil_append]
  exact List.Pairwise.sublist hsub hmono

/-- A run whose batches deliver ascending block numbers. -/
def msgsAscending : List StreamItem :=
  [.item (.dataMsg .accepted [⟨some ⟨3⟩, []⟩, ⟨some ⟨5⟩, []⟩]),
   .item (.dataMsg .pending [⟨some ⟨5⟩, []⟩, ⟨some ⟨6⟩, []⟩])]

/-- Claim C2, witness for the amended theorem on an ascending run. -/
theorem c2_monotone_writes_witness :
    List.Pairwise (fun a b => a ≤ b) (attemptedWrites msgsAscending) ∧
    List.Pairwise (fun a b => a ≤ b)
      ((processMsgs envHealthy initState msgsAscending).2.writes) :=
  ⟨by decide, c2_monotone_writes envHealthy msgsAscending (by decide)⟩

/-- Two loop states that agree on everything the hand-off queue and the
control flow can observe (the persistence history may differ). -/
def SameSendView (s₁ s₂ : LoopState) : Prop :=
  s₁.reachedPending = s₂.reachedPending ∧ s₁.sent = s₂.sent ∧ s₁.sendCount = s₂.sendCount

/-- Relation between the step outcomes of two parallel runs. -/
def StepRel : StepOut → StepOut → Prop
  | .next s₁, .next s₂ => SameSendView s₁ s₂
  | .stop r₁ s₁, .stop r₂ s₂ => r₁ = r₂ ∧ SameSendView s₁ s₂
  | _, _ => False

theorem tx_send_congr (env₁ env₂ : Env) (hde : env₁.dropAfter = env₂.dropAfter)
    (s₁ s₂ : LoopState) (h : SameSendView s₁ s₂) (e : Event) :
    SameSendView (tx_send env₁ s₁ e).1 (tx_send env₂ s₂ e).1 ∧
      (tx_send env₁ s₁ e).2 = (tx_send env₂ s₂ e).2 := by
  obtain ⟨hr, hs, hc⟩ := h
  have hok : sendOk env₁ s₁.sendCount = sendOk env₂ s₂.sendCount := by
    unfold sendOk
    rw [hde, hc]
  unfold tx_send
  rw [hok]
  cases h2 : sendOk env₂ s₂.sendCount with
  | true =>
    rw [if_pos rfl, if_pos rfl]
    exact ⟨⟨hr, by rw [hs], by rw [hc]⟩, rfl⟩
  | false =>
    rw [if_neg (by simp), if_neg (by simp)]
    exact ⟨⟨hr, hs, hc⟩, rfl⟩

theorem attemptSave_sendView (env : Env) (s : LoopState) (n : Nat) :
    (attemptSave env s n).reachedPending = s.reachedPending ∧
      (attemptSave env s n).sent = s.sent ∧ (attemptSave env s n).sendCount = s.sendCount := by
  unfold attemptSave
  split
  · exact ⟨rfl, rfl, rfl⟩
  · exact ⟨rfl, rfl, rfl⟩

theorem attemptSave_congr (env₁ env₂ : Env) (s₁ s₂ : LoopState)
    (h : SameSendView s₁ s₂) (n : Nat) :
    SameSendView (attemptSave env₁ s₁ n) (attemptSave env₂ s₂ n) := by
  obtain ⟨hr, hs, hc⟩ := h
  obtain ⟨h1r, h1s, h1c⟩ := attemptSave_sendView env₁ s₁ n
  obtain ⟨h2r, h2s, h2c⟩ := attemptSave_sendView env₂ s₂ n
  exact ⟨by rw [h1r, h2r, hr], by rw [h1s, h2s, hs], by rw [h1c, h2c, hc]⟩

theorem processEvents_congr (env₁ env₂ : Env) (hde : env₁.dropAfter = env₂.dropAfter)
    (evs : List EventWithTransaction) :
    ∀ s₁ s₂ : LoopState, SameSendView s₁ s₂ →
      SameSendView (processEvents env₁ s₁ evs).1 (processEvents env₂ s₂ evs).1 ∧
        (processEvents env₁ s₁ evs).2 = (processEvents env₂ s₂ evs).2 := by
  induction evs with
  | nil =>
    intro s₁ s₂ h
    exact ⟨h, rfl⟩
  | cons ev rest ih =>
    intro s₁ s₂ h
    cases hev : ev.event with
    | none =>
      simp only [processEvents, hev]
      exact ih s₁ s₂ h
    | some e =>
      simp only [processEvents, hev]
      obtain ⟨hview, hflag⟩ := tx_send_congr env₁ env₂ hde s₁ s₂ h e
      cases ht₁ : tx_send env₁ s₁ e with
      | mk t₁ f₁ =>
        cases ht₂ : tx_send env₂ s₂ e with
        | mk t₂ f₂ =>
          rw [ht₁, ht₂] at hview hflag
          simp only at hview hflag
          subst hflag
          cases f₁ with
          | false => exact ih t₁ t₂ hview
          | true => exact ⟨hview, rfl⟩

theorem processBlock_congr (env₁ env₂ : Env) (hde : env₁.dropAfter = env₂.dropAfter)
    (s₁ s₂ : LoopState) (h : SameSendView s₁ s₂) (b : Block) :
    SameSendView (processBlock env₁ s₁ b).1 (processBlock env₂ s₂ b).1 ∧
      (processBlock env₁ s₁ b).2 = (processBlock env₂ s₂ b).2 := by
  unfold processBlock
  obtain ⟨hview, hflag⟩ := processEvents_congr env₁ env₂ hde b.events s₁ s₂ h
  cases hp₁ : processEvents env₁ s₁ b.events with
  | mk t₁ f₁ =>
    cases hp₂ : processEvents env₂ s₂ b.events with
    | mk t₂ f₂ =>
      rw [hp₁, hp₂] at hview hflag
      simp only at hview hflag
      subst hflag
      cases f₁ with
      | false => exact ⟨attemptSave_congr env₁ env₂ t₁ t₂ hview _, rfl⟩
      | true => exact ⟨hview, rfl⟩

theorem processBatch_congr (env₁ env₂ : Env) (hde : env₁.dropAfter = env₂.dropAfter)
    (blocks : List Block) :
    ∀ s₁ s₂ : LoopState, SameSendView s₁ s₂ →
      SameSendView (processBatch env₁ s₁ blocks).1 (processBatch env₂ s₂ blocks).1 ∧
        (processBatch env₁ s₁ blocks).2 = (processBatch env₂ s₂ blocks).2 := by
  induction blocks with
  | nil =>
    intro s₁ s₂ h
    exact ⟨h, rfl⟩
  | cons b bs ih =>
    intro s₁ s₂ h
    simp only [processBatch]
    obtain ⟨hview, hflag⟩ := processBlock_congr env₁ env₂ hde s₁ s₂ h b
    cases hp₁ : processBlock env₁ s₁ b with
    | mk t₁ f₁ =>
      cases hp₂ : processBlock env₂ s₂ b with
      | mk t₂ f₂ =>
        rw [hp₁, hp₂] at hview hflag
        simp only at hview hflag
        subst hflag
        cases f₁ with
        | false => exact ih t₁ t₂ hview
        | true => exact ⟨hview, rfl⟩

theorem latchUpdate_congr (s₁ s₂ : LoopState) (h : SameSendView s₁ s₂) (f : DataFinality) :
    SameSendView (latchUpdate s₁ f) (latchUpdate s₂ f) := by
  obtain ⟨hr, hs, hc⟩ := h
  unfold latchUpdate
  rw [hr]
  split
  · exact ⟨rfl, hs, hc⟩
  · exact ⟨hr, hs, hc⟩

theorem processMsg_congr (env₁ env₂ : Env) (hde : env₁.dropAfter = env₂.dropAfter)
    (s₁ s₂ : LoopState) (h : SameSendView s₁ s₂) (m : StreamItem) :
    StepRel (processMsg env₁ s₁ m) (processMsg env₂ s₂ m) := by
  cases m with
  | item msg =>
    cases msg with
    | dataMsg f batch =>
      simp only [processMsg]
      obtain ⟨hview, hflag⟩ := processBatch_congr env₁ env₂ hde batch
        (latchUpdate s₁ f) (latchUpdate s₂ f) (latchUpdate_congr s₁ s₂ h f)
      cases hp₁ : processBatch env₁ (latchUpdate s₁ f) batch with
      | mk t₁ f₁ =>
        cases hp₂ : processBatch env₂ (latchUpdate s₂ f) batch with
        | mk t₂ f₂ =>
          rw [hp₁, hp₂] at hview hflag
          simp only at hview hflag
          subst hflag
          cases f₁ with
          | false => exact hview
          | true => exact ⟨rfl, hview⟩
    | invalidate cursor => exact ⟨rfl, h⟩
    | heartbeat => exact h
  | streamError e => exact ⟨rfl, h⟩

theorem processMsgs_congr (env₁ env₂ : Env) (hde : env₁.dropAfter = env₂.dropAfter)
    (msgs : List StreamItem) :
    ∀ s₁ s₂ : LoopState, SameSendView s₁ s₂ →
      (processMsgs env₁ s₁ msgs).1 = (processMsgs env₂ s₂ msgs).1 ∧
        SameSendView (processMsgs env₁ s₁ msgs).2 (processMsgs env₂ s₂ msgs).2 := by
  induction msgs with
  | nil =>
    intro s₁ s₂ h
    exact ⟨rfl, h⟩
  | cons m rest ih =>
    intro s₁ s₂ h
    simp only [processMsgs]
    have hrel := processMsg_congr env₁ env₂ hde s₁ s₂ h m
    cases hm₁ : processMsg env₁ s₁ m with
    | next t₁ =>
      cases hm₂ : processMsg env₂ s₂ m with
      | next t₂ =>
        rw [hm₁, hm₂] at hrel
        exact ih t₁ t₂ hrel
      | stop r₂ t₂ =>
        rw [hm₁, hm₂] at hrel
        exact absurd hrel (by simp [StepRel])
    | stop r₁ t₁ =>
      cases hm₂ : processMsg env₂ s₂ m with
      | next t₂ =>
        rw [hm₁, hm₂] at hrel
        exact absurd hrel (by simp [StepRel])
      | stop r₂ t₂ =>
        rw [hm₁, hm₂] at hrel
        obtain ⟨hr, hv⟩ := hrel
        exact ⟨hr, hv⟩

/-- Claim C6: checkpoint persistence failures are non-fatal and only logged: the
result of the run and the events forwarded through the hand-off queue are
identical whatever the set of failing save attempts — the loop continues with
the next block and message regardless of persistence failures. -/
theorem c6_save_failure_nonfatal (env : Env) (g : Nat → Bool) (msgs : List StreamItem)
    (st : LoopState) :
    (processMsgs { env with saveFails := g } st msgs).1 = (processMsgs env st msgs).1 ∧
    (processMsgs { env with saveFails := g } st msgs).2.sent =
      (processMsgs env st msgs).2.sent := by
  have h := processMsgs_congr { env with saveFails := g } env rfl msgs st st ⟨rfl, rfl, rfl⟩
  exact ⟨h.1, h.2.2.1⟩

end Kanshi
